import Mathlib

/-!
Shallow embedding of the Battleship program (`src/main.rs`) and proofs of
the specification claims about it.

The Rust program keeps a fixed `10 × 10` grid of `CellState` per board,
a vector of ship-occupied positions, and a visibility flag.  The grid is
embedded as a total function `Nat → Nat → CellState`; the program only
ever indexes it with coordinates below `BOARD_SIZE`, which every claim
assumes, and updates are embedded as pointwise function update.
-/

namespace BattleField

/-- `const BOARD_SIZE: usize = 10`. -/
def BOARD_SIZE : Nat := 10

/-- `enum CellState` from the source: the status of one grid cell. -/
inductive CellState where
  | Empty
  | Ship
  | Hit
  | Miss
deriving DecidableEq

/-- `enum BoardVisibility` from the source. -/
inductive BoardVisibility where
  | Visible
  | Hidden
deriving DecidableEq

/-- `struct Position` from the source: a zero-based (row, column) pair. -/
structure Position where
  row : Nat
  column : Nat
deriving DecidableEq

/-- `enum Orientation` from the source: layout direction of a ship. -/
inductive Orientation where
  | Horizontal
  | Vertical
deriving DecidableEq

/-- `struct Board` from the source.  `grid` is the `BOARD_SIZE × BOARD_SIZE`
matrix of cell states, embedded as a function on coordinates; `ships` stores
the `Position` of every ship cell; `board_visibility` is fixed at creation. -/
structure Board where
  grid : Nat → Nat → CellState
  ships : List Position
  board_visibility : BoardVisibility

/-- Pointwise update of the grid: the embedding of the Rust assignment
`self.grid[row][column] = s`. -/
def setCell (g : Nat → Nat → CellState) (row column : Nat) (s : CellState) :
    Nat → Nat → CellState :=
  fun r c => if r = row ∧ c = column then s else g r c

/-- `Board::new`: an all-`Empty` grid, no ships, the given visibility. -/
def Board.new (board_visibility : BoardVisibility) : Board :=
  { grid := fun _ _ => CellState.Empty
    ships := []
    board_visibility := board_visibility }

/-- `Board::can_place`: the candidate segment of length `size` anchored at
`position` in direction `orientation` must stay inside the board and meet
only `Empty` cells.  Direct translation of the two match arms. -/
def Board.can_place (b : Board) (position : Position) (size : Nat)
    (orientation : Orientation) : Bool :=
  match orientation with
  | Orientation.Horizontal =>
    if position.column + size > BOARD_SIZE then false
    else
      (List.range size).all fun i =>
        decide (b.grid position.row (position.column + i) = CellState.Empty)
  | Orientation.Vertical =>
    if position.row + size > BOARD_SIZE then false
    else
      (List.range size).all fun i =>
        decide (b.grid (position.row + i) position.column = CellState.Empty)

/-- The cell written by iteration `i` of the placement loop:
`(position.row, position.column + i)` horizontally,
`(position.row + i, position.column)` vertically. -/
def shipCell (position : Position) (direction : Orientation) (i : Nat) : Position :=
  match direction with
  | Orientation.Horizontal => ⟨position.row, position.column + i⟩
  | Orientation.Vertical => ⟨position.row + i, position.column⟩

/-- All cells of the candidate segment, in loop order `i = 0, …, size-1`. -/
def shipCells (position : Position) (size : Nat) (direction : Orientation) :
    List Position :=
  (List.range size).map (shipCell position direction)

/-- One iteration of the placement commit loop: set the cell to `Ship` and
push its position onto `ships`. -/
def placeStep (b : Board) (p : Position) : Board :=
  { b with
    grid := setCell b.grid p.row p.column CellState.Ship
    ships := b.ships ++ [p] }

/-- The commit phase of `Board::place_ship` once `can_place` has accepted the
drawn `position` and `direction`: the whole `for i in 0..size` loop. -/
def Board.place_ship_at (b : Board) (position : Position) (size : Nat)
    (direction : Orientation) : Board :=
  (shipCells position size direction).foldl placeStep b

/-- The observable behaviour of one terminating `Board::place_ship(size)` call.
The random number generator draws `row, column ∈ [0, BOARD_SIZE)` and a
direction; the loop commits at the first draw accepted by `can_place`.
So a call that returns took the board from `b` to `b.place_ship_at position
size direction` for some accepted in-range draw. -/
def PlaceShipStep (b : Board) (size : Nat) (b' : Board) : Prop :=
  ∃ (position : Position) (direction : Orientation),
    position.row < BOARD_SIZE ∧ position.column < BOARD_SIZE ∧
    b.can_place position size direction = true ∧
    b' = b.place_ship_at position size direction

/-- `Board::fire`: match on the targeted cell; `Empty` becomes `Miss`
(returning `Miss`), `Ship` becomes `Hit` (returning `Hit`), anything else is
left alone and `Miss` is returned.  The mutated board is returned alongside
the `CellState` the Rust function returns. -/
def Board.fire (b : Board) (position : Position) : Board × CellState :=
  match b.grid position.row position.column with
  | CellState.Empty =>
    ({ b with grid := setCell b.grid position.row position.column CellState.Miss },
      CellState.Miss)
  | CellState.Ship =>
    ({ b with grid := setCell b.grid position.row position.column CellState.Hit },
      CellState.Hit)
  | _ => (b, CellState.Miss)

/-- `Board::game_over`: all recorded ship positions map to `Hit` cells. -/
def Board.game_over (b : Board) : Bool :=
  b.ships.all fun position =>
    decide (b.grid position.row position.column = CellState.Hit)

/-- The number of grid cells (inside the `BOARD_SIZE × BOARD_SIZE` board)
whose state is `Ship` or `Hit`: the measure used by the full-coverage
property. -/
def Board.shipOrHitCount (b : Board) : Nat :=
  ((Finset.range BOARD_SIZE ×ˢ Finset.range BOARD_SIZE).filter fun rc =>
    b.grid rc.1 rc.2 = CellState.Ship ∨ b.grid rc.1 rc.2 = CellState.Hit).card

/-- Board states reachable from `Board::new` by any sequence of terminating
`place_ship` calls and `fire` calls at in-bounds positions (`fire` is only
ever invoked with caller-validated coordinates). -/
inductive Reachable : Board → Prop where
  | new (v : BoardVisibility) : Reachable (Board.new v)
  | place (b : Board) (size : Nat) (b' : Board) :
      Reachable b → PlaceShipStep b size b' → Reachable b'
  | fire (b : Board) (p : Position) :
      Reachable b → p.row < BOARD_SIZE → p.column < BOARD_SIZE →
      Reachable (b.fire p).1

/-- One logical operation of the game loop against a single board.  The
random draw of a `place_ship` call is made explicit so that the same
sequence of random choices can be replayed on another board. -/
inductive GameOp where
  | placeOp (size : Nat) (position : Position) (direction : Orientation)
  | fireOp (position : Position)

/-- Run one operation: a `placeOp` commits exactly when `can_place` accepts
the draw (otherwise the placement loop would redraw, which the op list
models as further `placeOp`s); a `fireOp` fires and records the returned
`CellState`. -/
def Board.runOp (b : Board) : GameOp → Board × Option CellState
  | GameOp.placeOp size position direction =>
    if b.can_place position size direction then
      (b.place_ship_at position size direction, none)
    else (b, none)
  | GameOp.fireOp position => ((b.fire position).1, some (b.fire position).2)

/-- Run a list of operations, collecting each op's returned value. -/
def Board.run (b : Board) : List GameOp → Board × List (Option CellState)
  | [] => (b, [])
  | op :: ops =>
    (((b.runOp op).1.run ops).1, (b.runOp op).2 :: ((b.runOp op).1.run ops).2)

/-- Embedding of `str::trim` on a character list: drop leading and trailing
whitespace. -/
def trimChars (cs : List Char) : List Char :=
  ((cs.dropWhile Char.isWhitespace).reverse.dropWhile Char.isWhitespace).reverse

/-- Embedding of `str::split(',')`: split the character list at every comma;
always returns at least one (possibly empty) token. -/
def splitComma : List Char → List (List Char)
  | [] => [[]]
  | c :: cs =>
    if c = ',' then [] :: splitComma cs
    else
      match splitComma cs with
      | t :: ts => (c :: t) :: ts
      | [] => [[c]]

/-- Numeric value of a list of ASCII digits, most significant first. -/
def digitsVal (ds : List Char) : Nat :=
  ds.foldl (fun acc c => acc * 10 + (c.toNat - 48)) 0

/-- Embedding of `str::parse::<usize>`: an optional leading plus sign
followed by one or more ASCII digits, rejecting values that overflow the
64-bit `usize`. -/
def parseUsize (cs : List Char) : Option Nat :=
  let ds := if cs.head? = some '+' then cs.tail else cs
  if ds ≠ [] ∧ ds.all Char.isDigit = true ∧ digitsVal ds < 2 ^ 64 then
    some (digitsVal ds)
  else none

/-- `parse_coordinates`: trim the line, split on commas, trim and parse each
token as `usize`; the Rust pattern `(Some(Ok(row)), Some(Ok(column)), None)`
succeeds exactly when the token list is `[Ok(row), Ok(column)]`. -/
def parse_coordinates (input : List Char) : Option Position :=
  match (splitComma (trimChars input)).map (fun c => parseUsize (trimChars c)) with
  | [some row, some column] => some ⟨row, column⟩
  | _ => none

/-- The validation gate of `user_input`: a raw line is accepted (the read
loop returns its `Position`) exactly when `parse_coordinates` succeeds and
both coordinates are below `BOARD_SIZE`; any other line makes the loop
retry. -/
def user_input_accepts (input : List Char) : Option Position :=
  match parse_coordinates input with
  | some position =>
    if position.row < BOARD_SIZE ∧ position.column < BOARD_SIZE then
      some position
    else none
  | none => none

/-- The acceptance condition in the words of the specification, for the
refinement comparison of claim C8: splitting the raw line on the comma
yields exactly two whitespace-trimmed tokens, both tokens parse as
non-negative integers, and the resulting row and column are below
`BOARD_SIZE`. -/
def specAccepts (input : List Char) (p : Position) : Prop :=
  ∃ t1 t2, (splitComma (trimChars input)).map trimChars = [t1, t2] ∧
    parseUsize t1 = some p.row ∧ parseUsize t2 = some p.column ∧
    p.row < BOARD_SIZE ∧ p.column < BOARD_SIZE

/-- The outcome claim C3 makes about one terminating `place_ship` call that
accepted the draw `(position, direction)`. -/
def PlacementOutcome (b b' : Board) (size : Nat) (position : Position)
    (direction : Orientation) : Prop :=
  b.can_place position size direction = true ∧
  (shipCells position size direction).length = size ∧
  (shipCells position size direction).Nodup ∧
  b'.ships = b.ships ++ shipCells position size direction ∧
  (∀ q ∈ shipCells position size direction,
    q.row < BOARD_SIZE ∧ q.column < BOARD_SIZE ∧
    b.grid q.row q.column = CellState.Empty ∧
    b'.grid q.row q.column = CellState.Ship) ∧
  (∀ r c, (⟨r, c⟩ : Position) ∉ shipCells position size direction →
    b'.grid r c = b.grid r c)

/-- A concrete fleet laid out row by row, used to exhibit witnesses: the
size-2 ship on row 0, size-3 on row 1, size-4 on row 2, size-5 on row 3. -/
def fleetB1 : Board :=
  (Board.new BoardVisibility.Visible).place_ship_at ⟨0, 0⟩ 2 Orientation.Horizontal

/-- Second placement of the concrete fleet. -/
def fleetB2 : Board := fleetB1.place_ship_at ⟨1, 0⟩ 3 Orientation.Horizontal

/-- Third placement of the concrete fleet. -/
def fleetB3 : Board := fleetB2.place_ship_at ⟨2, 0⟩ 4 Orientation.Horizontal

/-- Fourth placement of the concrete fleet. -/
def fleetB4 : Board := fleetB3.place_ship_at ⟨3, 0⟩ 5 Orientation.Horizontal

/-- Firing never modifies `ships`. -/
lemma fire_ships (b : Board) (p : Position) : (b.fire p).1.ships = b.ships := by
  cases h : b.grid p.row p.column <;> simp [Board.fire, h]

/-- Firing never modifies the visibility flag. -/
lemma fire_visibility (b : Board) (p : Position) :
    (b.fire p).1.board_visibility = b.board_visibility := by
  cases h : b.grid p.row p.column <;> simp [Board.fire, h]

/-- Firing leaves every cell other than the targeted one unchanged. -/
lemma fire_grid_ne (b : Board) (p : Position) (r c : Nat)
    (hne : ¬(r = p.row ∧ c = p.column)) :
    (b.fire p).1.grid r c = b.grid r c := by
  cases h : b.grid p.row p.column <;> simp [Board.fire, h, setCell, hne]

/-- A `Hit` cell is never changed by firing. -/
lemma fire_preserves_hit (b : Board) (p : Position) (r c : Nat)
    (h : b.grid r c = CellState.Hit) :
    (b.fire p).1.grid r c = CellState.Hit := by
  by_cases hrc : r = p.row ∧ c = p.column
  · have hp : b.grid p.row p.column = CellState.Hit := by
      rw [← hrc.1, ← hrc.2]; exact h
    simp [Board.fire, hp, h]
  · rw [fire_grid_ne b p r c hrc]; exact h

/-- Unfolding of `game_over` into a membership statement. -/
lemma game_over_eq_true_iff (b : Board) :
    b.game_over = true ↔
      ∀ p ∈ b.ships, b.grid p.row p.column = CellState.Hit := by
  simp [Board.game_over, List.all_eq_true]

/-- The commit loop appends exactly the processed positions to `ships`. -/
lemma foldl_placeStep_ships (ps : List Position) (b : Board) :
    (ps.foldl placeStep b).ships = b.ships ++ ps := by
  induction ps generalizing b with
  | nil => simp
  | cons p ps ih => simp [placeStep, ih]

/-- The commit loop leaves the visibility flag unchanged. -/
lemma foldl_placeStep_visibility (ps : List Position) (b : Board) :
    (ps.foldl placeStep b).board_visibility = b.board_visibility := by
  induction ps generalizing b with
  | nil => rfl
  | cons p ps ih => rw [List.foldl_cons, ih]; rfl

/-- After the commit loop, a cell holds `Ship` if its position was processed
and is otherwise untouched. -/
lemma foldl_placeStep_grid (ps : List Position) (b : Board) (r c : Nat) :
    (ps.foldl placeStep b).grid r c =
      if (⟨r, c⟩ : Position) ∈ ps then CellState.Ship else b.grid r c := by
  induction ps generalizing b with
  | nil => simp
  | cons p ps ih =>
    obtain ⟨pr, pc⟩ := p
    rw [List.foldl_cons, ih]
    by_cases hmem : (⟨r, c⟩ : Position) ∈ ps
    · simp [hmem]
    · by_cases hp : r = pr ∧ c = pc
      · simp [hmem, placeStep, setCell, hp, Position.mk.injEq, hp.1, hp.2]
      · have hne : (⟨r, c⟩ : Position) ≠ ⟨pr, pc⟩ := by
          simp [Position.mk.injEq]; intro h1 h2; exact hp ⟨h1, h2⟩
        simp [hmem, placeStep, setCell, hp, hne]

/-- The candidate segment has exactly `size` cells. -/
lemma shipCells_length (position : Position) (size : Nat)
    (direction : Orientation) :
    (shipCells position size direction).length = size := by
  simp [shipCells]

/-- The cells of a candidate segment are pairwise distinct. -/
lemma shipCells_nodup (position : Position) (size : Nat)
    (direction : Orientation) :
    (shipCells position size direction).Nodup := by
  refine List.Nodup.map ?_ (List.nodup_range size)
  intro i j hij
  cases direction <;> simp [shipCell, Position.mk.injEq] at hij <;> omega

/-- When `can_place` accepts an in-range anchor, every cell of the candidate
segment is in bounds and currently `Empty`. -/
lemma can_place_cells (b : Board) (position : Position) (size : Nat)
    (direction : Orientation)
    (hr : position.row < BOARD_SIZE) (hc : position.column < BOARD_SIZE)
    (h : b.can_place position size direction = true) :
    ∀ q ∈ shipCells position size direction,
      q.row < BOARD_SIZE ∧ q.column < BOARD_SIZE ∧
      b.grid q.row q.column = CellState.Empty := by
  intro q hq
  simp only [shipCells, List.mem_map, List.mem_range] at hq
  obtain ⟨i, hi, rfl⟩ := hq
  cases direction with
  | Horizontal =>
    simp only [shipCell]
    by_cases hov : position.column + size > BOARD_SIZE
    · simp [Board.can_place, hov] at h
    · simp only [Board.can_place, hov, if_neg, ite_false, List.all_eq_true,
        List.mem_range, decide_eq_true_eq] at h
      exact ⟨hr, by omega, h i hi⟩
  | Vertical =>
    simp only [shipCell]
    by_cases hov : position.row + size > BOARD_SIZE
    · simp [Board.can_place, hov] at h
    · simp only [Board.can_place, hov, if_neg, ite_false, List.all_eq_true,
        List.mem_range, decide_eq_true_eq] at h
      exact ⟨by omega, hc, h i hi⟩

/-- The `ships` sequence after a whole commit phase. -/
lemma place_ship_at_ships (b : Board) (position : Position) (size : Nat)
    (direction : Orientation) :
    (b.place_ship_at position size direction).ships =
      b.ships ++ shipCells position size direction :=
  foldl_placeStep_ships _ _

/-- The grid after a whole commit phase: segment cells hold `Ship`, all
other cells are untouched. -/
lemma place_ship_at_grid (b : Board) (position : Position) (size : Nat)
    (direction : Orientation) (r c : Nat) :
    (b.place_ship_at position size direction).grid r c =
      if (⟨r, c⟩ : Position) ∈ shipCells position size direction then
        CellState.Ship
      else b.grid r c :=
  foldl_placeStep_grid _ _ _ _

/-- Marking one in-bounds, currently `Empty` cell as `Ship` raises the
ship-or-hit cell count by one. -/
lemma shipOrHitCount_placeStep (b : Board) (p : Position)
    (hr : p.row < BOARD_SIZE) (hc : p.column < BOARD_SIZE)
    (he : b.grid p.row p.column = CellState.Empty) :
    (placeStep b p).shipOrHitCount = b.shipOrHitCount + 1 := by
  obtain ⟨pr, pc⟩ := p
  have hset :
      ((Finset.range BOARD_SIZE ×ˢ Finset.range BOARD_SIZE).filter fun rc =>
        (placeStep b ⟨pr, pc⟩).grid rc.1 rc.2 = CellState.Ship ∨
        (placeStep b ⟨pr, pc⟩).grid rc.1 rc.2 = CellState.Hit) =
      insert (pr, pc)
        ((Finset.range BOARD_SIZE ×ˢ Finset.range BOARD_SIZE).filter fun rc =>
          b.grid rc.1 rc.2 = CellState.Ship ∨ b.grid rc.1 rc.2 = CellState.Hit) := by
    ext rc
    obtain ⟨r, c⟩ := rc
    simp only [Finset.mem_filter, Finset.mem_insert, Finset.mem_product,
      Finset.mem_range, Prod.mk.injEq, placeStep, setCell]
    by_cases hrc : r = pr ∧ c = pc
    · simp only [hrc.1, hrc.2] at *
      simp [hr, hc]
    · simp [hrc]
  unfold Board.shipOrHitCount
  rw [hset, Finset.card_insert_of_not_mem (by simp [Finset.mem_filter, he])]

/-- Committing a list of pairwise-distinct, in-bounds, currently `Empty`
cells raises the ship-or-hit cell count by the number of cells. -/
lemma shipOrHitCount_foldl (ps : List Position) (b : Board)
    (hok : ∀ q ∈ ps, q.row < BOARD_SIZE ∧ q.column < BOARD_SIZE ∧
      b.grid q.row q.column = CellState.Empty)
    (hnd : ps.Nodup) :
    (ps.foldl placeStep b).shipOrHitCount = b.shipOrHitCount + ps.length := by
  induction ps generalizing b with
  | nil => simp
  | cons p ps ih =>
    have hp := hok p (List.mem_cons_self p ps)
    have hnotmem : p ∉ ps := (List.nodup_cons.mp hnd).1
    have hok' : ∀ q ∈ ps, q.row < BOARD_SIZE ∧ q.column < BOARD_SIZE ∧
        (placeStep b p).grid q.row q.column = CellState.Empty := by
      intro q hq
      have hq0 := hok q (List.mem_cons_of_mem p hq)
      refine ⟨hq0.1, hq0.2.1, ?_⟩
      have hne : ¬(q.row = p.row ∧ q.column = p.column) := by
        intro hcoord
        apply hnotmem
        have hqp : q = p := by
          obtain ⟨qr, qc⟩ := q
          obtain ⟨pr, pc⟩ := p
          simp only at hcoord
          simp [Position.mk.injEq, hcoord.1, hcoord.2]
        rwa [← hqp]
      simpa [placeStep, setCell, hne] using hq0.2.2
    rw [List.foldl_cons, ih (placeStep b p) hok' (List.nodup_cons.mp hnd).2,
      shipOrHitCount_placeStep b p hp.1 hp.2.1 hp.2.2]
    simp only [List.length_cons]
    omega

/-- A whole accepted commit phase raises the ship-or-hit cell count by the
ship's size. -/
lemma shipOrHitCount_place_ship_at (b : Board) (position : Position)
    (size : Nat) (direction : Orientation)
    (hr : position.row < BOARD_SIZE) (hc : position.column < BOARD_SIZE)
    (h : b.can_place position size direction = true) :
    (b.place_ship_at position size direction).shipOrHitCount =
      b.shipOrHitCount + size := by
  unfold Board.place_ship_at
  rw [shipOrHitCount_foldl _ _ (can_place_cells b position size direction hr hc h)
    (shipCells_nodup position size direction), shipCells_length]

/-- A fresh board has no ship-or-hit cells. -/
lemma shipOrHitCount_new (v : BoardVisibility) :
    (Board.new v).shipOrHitCount = 0 := rfl

/-- Firing never turns a cell back to `Empty`. -/
lemma fire_grid_not_empty (b : Board) (p : Position) (r c : Nat)
    (h : b.grid r c ≠ CellState.Empty) :
    (b.fire p).1.grid r c ≠ CellState.Empty := by
  by_cases hrc : r = p.row ∧ c = p.column
  · cases hg : b.grid p.row p.column <;>
      simp [Board.fire, hg, setCell, hrc]
  · rw [fire_grid_ne b p r c hrc]
    exact h

/-- C1: for every in-bounds position, fire turns an `Empty` cell into `Miss`
and returns `Miss`; turns a `Ship` cell into `Hit` and returns `Hit`; and on
a `Hit` or `Miss` cell mutates nothing and returns `Miss`. -/
theorem C1_fire_cases (b : Board) (p : Position)
    (hr : p.row < BOARD_SIZE) (hc : p.column < BOARD_SIZE) :
    (b.grid p.row p.column = CellState.Empty →
      (b.fire p).1.grid p.row p.column = CellState.Miss ∧
      (b.fire p).2 = CellState.Miss) ∧
    (b.grid p.row p.column = CellState.Ship →
      (b.fire p).1.grid p.row p.column = CellState.Hit ∧
      (b.fire p).2 = CellState.Hit) ∧
    ((b.grid p.row p.column = CellState.Hit ∨
      b.grid p.row p.column = CellState.Miss) →
      (b.fire p).1 = b ∧ (b.fire p).2 = CellState.Miss) := by
  refine ⟨fun h => ?_, fun h => ?_, fun h => ?_⟩
  · simp [Board.fire, h, setCell]
  · simp [Board.fire, h, setCell]
  · rcases h with h | h <;> simp [Board.fire, h]

/-- Witness for C1 at a concrete board and position. -/
theorem C1_fire_cases_witness :
    (0 : Nat) < BOARD_SIZE ∧
    (((Board.new BoardVisibility.Visible).grid 0 0 = CellState.Empty →
      ((Board.new BoardVisibility.Visible).fire ⟨0, 0⟩).1.grid 0 0 = CellState.Miss ∧
      ((Board.new BoardVisibility.Visible).fire ⟨0, 0⟩).2 = CellState.Miss) ∧
    ((Board.new BoardVisibility.Visible).grid 0 0 = CellState.Ship →
      ((Board.new BoardVisibility.Visible).fire ⟨0, 0⟩).1.grid 0 0 = CellState.Hit ∧
      ((Board.new BoardVisibility.Visible).fire ⟨0, 0⟩).2 = CellState.Hit) ∧
    (((Board.new BoardVisibility.Visible).grid 0 0 = CellState.Hit ∨
      (Board.new BoardVisibility.Visible).grid 0 0 = CellState.Miss) →
      ((Board.new BoardVisibility.Visible).fire ⟨0, 0⟩).1 = Board.new BoardVisibility.Visible ∧
      ((Board.new BoardVisibility.Visible).fire ⟨0, 0⟩).2 = CellState.Miss)) :=
  ⟨by decide, C1_fire_cases (Board.new BoardVisibility.Visible) ⟨0, 0⟩ (by decide) (by decide)⟩

/-- C2: `game_over` returns `true` exactly when every position recorded in
`ships` maps to a `Hit` grid cell; being a pure function of the board it
mutates nothing. -/
theorem C2_game_over_iff (b : Board) :
    b.game_over = true ↔
      ∀ p ∈ b.ships, b.grid p.row p.column = CellState.Hit := by
  simp [Board.game_over, List.all_eq_true]

/-- C10: on a freshly constructed board `ships` is empty, so `game_over`
holds vacuously. -/
theorem C10_new_game_over (v : BoardVisibility) :
    (Board.new v).game_over = true := rfl

/-- C6: firing is frame-preserving: for an in-bounds position `p`, at most the
grid cell at `p` changes; every other grid cell, the `ships` sequence and the
visibility flag are left unchanged. -/
theorem C6_fire_frame (b : Board) (p : Position)
    (hr : p.row < BOARD_SIZE) (hc : p.column < BOARD_SIZE) :
    (b.fire p).1.ships = b.ships ∧
    (b.fire p).1.board_visibility = b.board_visibility ∧
    ∀ r c, ¬(r = p.row ∧ c = p.column) → (b.fire p).1.grid r c = b.grid r c :=
  ⟨fire_ships b p, fire_visibility b p, fun r c hne => fire_grid_ne b p r c hne⟩

/-- Witness for C6 at a concrete board and position. -/
theorem C6_fire_frame_witness :
    (1 : Nat) < BOARD_SIZE ∧ (2 : Nat) < BOARD_SIZE ∧
    (((Board.new BoardVisibility.Hidden).fire ⟨1, 2⟩).1.ships =
      (Board.new BoardVisibility.Hidden).ships ∧
    ((Board.new BoardVisibility.Hidden).fire ⟨1, 2⟩).1.board_visibility =
      (Board.new BoardVisibility.Hidden).board_visibility ∧
    ∀ r c, ¬(r = (⟨1, 2⟩ : Position).row ∧ c = (⟨1, 2⟩ : Position).column) →
      ((Board.new BoardVisibility.Hidden).fire ⟨1, 2⟩).1.grid r c =
        (Board.new BoardVisibility.Hidden).grid r c) :=
  ⟨by decide, by decide,
    C6_fire_frame (Board.new BoardVisibility.Hidden) ⟨1, 2⟩ (by decide) (by decide)⟩

/-- C5: the win condition is monotonic: if `game_over` holds then it still
holds after firing at any in-bounds position, since a `Hit` cell is never
changed back. -/
theorem C5_game_over_monotonic (b : Board) (p : Position)
    (hr : p.row < BOARD_SIZE) (hc : p.column < BOARD_SIZE)
    (h : b.game_over = true) : ((b.fire p).1).game_over = true := by
  rw [game_over_eq_true_iff] at h ⊢
  intro q hq
  rw [fire_ships] at hq
  exact fire_preserves_hit b p q.row q.column (h q hq)

/-- Witness for C5: a board with a single already-hit ship cell. -/
theorem C5_game_over_monotonic_witness :
    (0 : Nat) < BOARD_SIZE ∧ (1 : Nat) < BOARD_SIZE ∧
    ({ grid := setCell (fun _ _ => CellState.Empty) 0 0 CellState.Hit
       ships := [⟨0, 0⟩]
       board_visibility := BoardVisibility.Visible } : Board).game_over = true ∧
    ((({ grid := setCell (fun _ _ => CellState.Empty) 0 0 CellState.Hit
         ships := [⟨0, 0⟩]
         board_visibility := BoardVisibility.Visible } : Board).fire ⟨0, 1⟩).1).game_over = true :=
  ⟨by decide, by decide, by decide,
    C5_game_over_monotonic _ ⟨0, 1⟩ (by decide) (by decide) (by decide)⟩

/-- C3: whenever `place_ship(size)` returns (for `size ≤ BOARD_SIZE`), it
accepted some in-range draw, marked exactly the `size` cells of that straight
segment — all previously `Empty` and in bounds — as `Ship`, appended exactly
those positions to `ships`, and changed no other cell. -/
theorem C3_place_ship_outcome (b b' : Board) (size : Nat)
    (hsize : size ≤ BOARD_SIZE) (h : PlaceShipStep b size b') :
    ∃ position direction, PlacementOutcome b b' size position direction := by
  obtain ⟨position, direction, hr, hc, hcp, rfl⟩ := h
  refine ⟨position, direction, hcp, shipCells_length _ _ _,
    shipCells_nodup _ _ _, place_ship_at_ships _ _ _ _, ?_, ?_⟩
  · intro q hq
    obtain ⟨h1, h2, h3⟩ := can_place_cells b position size direction hr hc hcp q hq
    refine ⟨h1, h2, h3, ?_⟩
    obtain ⟨qr, qc⟩ := q
    simp only [place_ship_at_grid]
    simp [hq]
  · intro r c hnot
    simp only [place_ship_at_grid]
    simp [hnot]

/-- Witness for C3: placing the size-2 ship on a fresh board. -/
theorem C3_place_ship_outcome_witness :
    2 ≤ BOARD_SIZE ∧
    PlaceShipStep (Board.new BoardVisibility.Visible) 2 fleetB1 ∧
    ∃ position direction,
      PlacementOutcome (Board.new BoardVisibility.Visible) fleetB1 2
        position direction :=
  ⟨by decide,
   ⟨⟨0, 0⟩, Orientation.Horizontal, by decide, by decide, by decide, rfl⟩,
   C3_place_ship_outcome (Board.new BoardVisibility.Visible) fleetB1 2 (by decide)
     ⟨⟨0, 0⟩, Orientation.Horizontal, by decide, by decide, by decide, rfl⟩⟩

/-- C4: every board reachable from `Board::new` by `place_ship` and in-bounds
`fire` calls satisfies the invariant: each stored ship position is in bounds,
its grid cell is never `Empty`, and the stored positions are pairwise
distinct. -/
theorem C4_reachable_invariant (b : Board) (h : Reachable b) :
    (∀ p ∈ b.ships, p.row < BOARD_SIZE ∧ p.column < BOARD_SIZE ∧
      b.grid p.row p.column ≠ CellState.Empty) ∧ b.ships.Nodup := by
  induction h with
  | new v => exact ⟨fun p hp => absurd hp (List.not_mem_nil p), List.nodup_nil⟩
  | place b size b' hb hstep ih =>
    obtain ⟨position, direction, hr, hc, hcp, rfl⟩ := hstep
    have hcells := can_place_cells b position size direction hr hc hcp
    constructor
    · intro q hq
      rw [place_ship_at_ships] at hq
      rcases List.mem_append.mp hq with hold | hnew
      · obtain ⟨h1, h2, h3⟩ := ih.1 q hold
        refine ⟨h1, h2, ?_⟩
        obtain ⟨qr, qc⟩ := q
        simp only [place_ship_at_grid]
        by_cases hmem : (⟨qr, qc⟩ : Position) ∈ shipCells position size direction
        · simp [hmem]
        · simpa [hmem] using h3
      · obtain ⟨h1, h2, h3⟩ := hcells q hnew
        refine ⟨h1, h2, ?_⟩
        obtain ⟨qr, qc⟩ := q
        simp only [place_ship_at_grid]
        simp [hnew]
    · rw [place_ship_at_ships]
      refine List.Nodup.append ih.2 (shipCells_nodup _ _ _) ?_
      intro q hqold hqnew
      exact (ih.1 q hqold).2.2 (hcells q hqnew).2.2
  | fire b p hb hr hc ih =>
    refine ⟨?_, by rw [fire_ships]; exact ih.2⟩
    intro q hq
    rw [fire_ships] at hq
    obtain ⟨h1, h2, h3⟩ := ih.1 q hq
    exact ⟨h1, h2, fire_grid_not_empty b p q.row q.column h3⟩

/-- Witness for C4: a board reached by one placement and one fire call. -/
theorem C4_reachable_invariant_witness :
    Reachable (fleetB1.fire ⟨0, 0⟩).1 ∧
    ((∀ p ∈ (fleetB1.fire ⟨0, 0⟩).1.ships,
        p.row < BOARD_SIZE ∧ p.column < BOARD_SIZE ∧
        (fleetB1.fire ⟨0, 0⟩).1.grid p.row p.column ≠ CellState.Empty) ∧
      (fleetB1.fire ⟨0, 0⟩).1.ships.Nodup) :=
  have hreach : Reachable (fleetB1.fire ⟨0, 0⟩).1 :=
    Reachable.fire fleetB1 ⟨0, 0⟩
      (Reachable.place (Board.new BoardVisibility.Visible) 2 fleetB1
        (Reachable.new BoardVisibility.Visible)
        ⟨⟨0, 0⟩, Orientation.Horizontal, by decide, by decide, by decide, rfl⟩)
      (by decide) (by decide)
  ⟨hreach, C4_reachable_invariant (fleetB1.fire ⟨0, 0⟩).1 hreach⟩

/-- C7: after placements of sizes 2, 3, 4, 5 on a fresh board, `ships` has
length 14 and the grid holds exactly 14 ship-or-hit cells. -/
theorem C7_fleet_totals (v : BoardVisibility) (b1 b2 b3 b4 : Board)
    (h1 : PlaceShipStep (Board.new v) 2 b1)
    (h2 : PlaceShipStep b1 3 b2)
    (h3 : PlaceShipStep b2 4 b3)
    (h4 : PlaceShipStep b3 5 b4) :
    b4.ships.length = 14 ∧ b4.shipOrHitCount = 14 := by
  obtain ⟨p1, d1, hr1, hc1, hcp1, rfl⟩ := h1
  obtain ⟨p2, d2, hr2, hc2, hcp2, rfl⟩ := h2
  obtain ⟨p3, d3, hr3, hc3, hcp3, rfl⟩ := h3
  obtain ⟨p4, d4, hr4, hc4, hcp4, rfl⟩ := h4
  constructor
  · simp [place_ship_at_ships, shipCells_length, Board.new]
  · rw [shipOrHitCount_place_ship_at _ _ _ _ hr4 hc4 hcp4,
      shipOrHitCount_place_ship_at _ _ _ _ hr3 hc3 hcp3,
      shipOrHitCount_place_ship_at _ _ _ _ hr2 hc2 hcp2,
      shipOrHitCount_place_ship_at _ _ _ _ hr1 hc1 hcp1,
      shipOrHitCount_new]

/-- Witness for C7: the concrete row-by-row fleet. -/
theorem C7_fleet_totals_witness :
    PlaceShipStep (Board.new BoardVisibility.Visible) 2 fleetB1 ∧
    PlaceShipStep fleetB1 3 fleetB2 ∧
    PlaceShipStep fleetB2 4 fleetB3 ∧
    PlaceShipStep fleetB3 5 fleetB4 ∧
    (fleetB4.ships.length = 14 ∧ fleetB4.shipOrHitCount = 14) :=
  ⟨⟨⟨0, 0⟩, Orientation.Horizontal, by decide, by decide, by decide, rfl⟩,
   ⟨⟨1, 0⟩, Orientation.Horizontal, by decide, by decide, by decide, rfl⟩,
   ⟨⟨2, 0⟩, Orientation.Horizontal, by decide, by decide, by decide, rfl⟩,
   ⟨⟨3, 0⟩, Orientation.Horizontal, by decide, by decide, by decide, rfl⟩,
   C7_fleet_totals BoardVisibility.Visible fleetB1 fleetB2 fleetB3 fleetB4
     ⟨⟨0, 0⟩, Orientation.Horizontal, by decide, by decide, by decide, rfl⟩
     ⟨⟨1, 0⟩, Orientation.Horizontal, by decide, by decide, by decide, rfl⟩
     ⟨⟨2, 0⟩, Orientation.Horizontal, by decide, by decide, by decide, rfl⟩
     ⟨⟨3, 0⟩, Orientation.Horizontal, by decide, by decide, by decide, rfl⟩⟩

/-- `can_place` reads only the grid. -/
lemma can_place_congr (b b2 : Board) (hg : b.grid = b2.grid)
    (position : Position) (size : Nat) (direction : Orientation) :
    b.can_place position size direction = b2.can_place position size direction := by
  cases direction <;> simp [Board.can_place, hg]

/-- The commit phase reads and writes only the grid and the ships list. -/
lemma place_ship_at_congr (b b2 : Board) (hg : b.grid = b2.grid)
    (hs : b.ships = b2.ships) (position : Position) (size : Nat)
    (direction : Orientation) :
    (b.place_ship_at position size direction).grid =
      (b2.place_ship_at position size direction).grid ∧
    (b.place_ship_at position size direction).ships =
      (b2.place_ship_at position size direction).ships := by
  constructor
  · funext r c
    rw [place_ship_at_grid, place_ship_at_grid, hg]
  · rw [place_ship_at_ships, place_ship_at_ships, hs]

/-- Firing reads and writes only the grid, and its return value depends only
on the grid. -/
lemma fire_congr (b b2 : Board) (hg : b.grid = b2.grid) (p : Position) :
    (b.fire p).1.grid = (b2.fire p).1.grid ∧ (b.fire p).2 = (b2.fire p).2 := by
  have h2 : b2.grid p.row p.column = b.grid p.row p.column := by rw [hg]
  cases h : b.grid p.row p.column <;>
    simp [Board.fire, h, h2, hg]

/-- `game_over` depends only on the grid and the ships list. -/
lemma game_over_congr (b b2 : Board) (hg : b.grid = b2.grid)
    (hs : b.ships = b2.ships) : b.game_over = b2.game_over := by
  simp [Board.game_over, hg, hs]

/-- One game operation preserves agreement of grid and ships, and returns
the same value on both boards. -/
lemma runOp_congr (b b2 : Board) (hg : b.grid = b2.grid)
    (hs : b.ships = b2.ships) (op : GameOp) :
    (b.runOp op).1.grid = (b2.runOp op).1.grid ∧
    (b.runOp op).1.ships = (b2.runOp op).1.ships ∧
    (b.runOp op).2 = (b2.runOp op).2 := by
  cases op with
  | placeOp size position direction =>
    have hcpeq := can_place_congr b b2 hg position size direction
    cases hcp : b2.can_place position size direction with
    | true =>
      have hcongr := place_ship_at_congr b b2 hg hs position size direction
      simp [Board.runOp, hcpeq, hcp, hcongr.1, hcongr.2]
    | false => simp [Board.runOp, hcpeq, hcp, hg, hs]
  | fireOp position =>
    have hcongr := fire_congr b b2 hg position
    simp [Board.runOp, hcongr.1, hcongr.2, fire_ships, hs]

/-- Running a list of game operations preserves agreement of grid and ships
and produces the same outputs on both boards. -/
lemma run_congr (ops : List GameOp) (b b2 : Board) (hg : b.grid = b2.grid)
    (hs : b.ships = b2.ships) :
    (b.run ops).1.grid = (b2.run ops).1.grid ∧
    (b.run ops).1.ships = (b2.run ops).1.ships ∧
    (b.run ops).2 = (b2.run ops).2 := by
  induction ops generalizing b b2 with
  | nil => exact ⟨hg, hs, rfl⟩
  | cons op ops ih =>
    have hstep := runOp_congr b b2 hg hs op
    have hrest := ih (b.runOp op).1 (b2.runOp op).1 hstep.1 hstep.2.1
    simp [Board.run, hrest.1, hrest.2.1, hrest.2.2, hstep.2.2]

/-- C9: visibility never affects game logic: two boards that agree on grid
and ships (so may differ only in their visibility flag) stay in agreement
under any common sequence of placement draws and fire calls, return the same
values throughout, and agree on `game_over`. -/
theorem C9_visibility_noninterference (b b2 : Board) (hg : b.grid = b2.grid)
    (hs : b.ships = b2.ships) (ops : List GameOp) :
    (b.run ops).1.grid = (b2.run ops).1.grid ∧
    (b.run ops).1.ships = (b2.run ops).1.ships ∧
    (b.run ops).2 = (b2.run ops).2 ∧
    (b.run ops).1.game_over = (b2.run ops).1.game_over := by
  have h := run_congr ops b b2 hg hs
  exact ⟨h.1, h.2.1, h.2.2, game_over_congr _ _ h.1 h.2.1⟩

/-- Witness for C9: a visible and a hidden fresh board running the same
placement and fire operations. -/
theorem C9_visibility_noninterference_witness :
    (Board.new BoardVisibility.Visible).grid = (Board.new BoardVisibility.Hidden).grid ∧
    (Board.new BoardVisibility.Visible).ships = (Board.new BoardVisibility.Hidden).ships ∧
    (((Board.new BoardVisibility.Visible).run
        [GameOp.placeOp 2 ⟨0, 0⟩ Orientation.Horizontal, GameOp.fireOp ⟨0, 0⟩]).1.grid =
      ((Board.new BoardVisibility.Hidden).run
        [GameOp.placeOp 2 ⟨0, 0⟩ Orientation.Horizontal, GameOp.fireOp ⟨0, 0⟩]).1.grid ∧
    ((Board.new BoardVisibility.Visible).run
        [GameOp.placeOp 2 ⟨0, 0⟩ Orientation.Horizontal, GameOp.fireOp ⟨0, 0⟩]).1.ships =
      ((Board.new BoardVisibility.Hidden).run
        [GameOp.placeOp 2 ⟨0, 0⟩ Orientation.Horizontal, GameOp.fireOp ⟨0, 0⟩]).1.ships ∧
    ((Board.new BoardVisibility.Visible).run
        [GameOp.placeOp 2 ⟨0, 0⟩ Orientation.Horizontal, GameOp.fireOp ⟨0, 0⟩]).2 =
      ((Board.new BoardVisibility.Hidden).run
        [GameOp.placeOp 2 ⟨0, 0⟩ Orientation.Horizontal, GameOp.fireOp ⟨0, 0⟩]).2 ∧
    ((Board.new BoardVisibility.Visible).run
        [GameOp.placeOp 2 ⟨0, 0⟩ Orientation.Horizontal, GameOp.fireOp ⟨0, 0⟩]).1.game_over =
      ((Board.new BoardVisibility.Hidden).run
        [GameOp.placeOp 2 ⟨0, 0⟩ Orientation.Horizontal, GameOp.fireOp ⟨0, 0⟩]).1.game_over) :=
  ⟨rfl, rfl,
    C9_visibility_noninterference (Board.new BoardVisibility.Visible)
      (Board.new BoardVisibility.Hidden) rfl rfl
      [GameOp.placeOp 2 ⟨0, 0⟩ Orientation.Horizontal, GameOp.fireOp ⟨0, 0⟩]⟩

/-- C8: the coordinate-input gate accepts a raw line exactly when splitting
it on the comma yields exactly two whitespace-trimmed tokens that both parse
as non-negative integers with row and column below `BOARD_SIZE`; in
particular it accepts the sample input with a space and rejects the
three-token, non-numeric and out-of-bounds samples. -/
theorem C8_parsing :
    (∀ (input : List Char) (p : Position),
      user_input_accepts input = some p ↔ specAccepts input p) ∧
    user_input_accepts ("3, 4".data) = some ⟨3, 4⟩ ∧
    user_input_accepts ("3,4,5".data) = none ∧
    user_input_accepts ("a,b".data) = none ∧
    user_input_accepts ("10,0".data) = none := by
  refine ⟨?_, by decide, by decide, by decide, by decide⟩
  intro input p
  obtain ⟨prow, pcol⟩ := p
  unfold user_input_accepts parse_coordinates specAccepts
  rcases hsplit : splitComma (trimChars input) with _ | ⟨a, _ | ⟨b, _ | ⟨d, rest⟩⟩⟩
  · simp
  · simp
  · rcases ha : parseUsize (trimChars a) with _ | r
    · simp [ha]
    · rcases hb : parseUsize (trimChars b) with _ | c
      · simp [ha, hb]
      · by_cases hcond : r < BOARD_SIZE ∧ c < BOARD_SIZE
        · simp only [List.map, ha, hb]
          simp [hcond, Position.mk.injEq]
          constructor
          · rintro ⟨rfl, rfl⟩
            exact ⟨trimChars a, trimChars b, ⟨rfl, rfl⟩, ha, hb, hcond.1, hcond.2⟩
          · intro h
            obtain ⟨t1, t2, ⟨ht1, ht2⟩, hp1, hp2, h3, h4⟩ := h
            rw [← ht1, ha] at hp1
            rw [← ht2, hb] at hp2
            exact ⟨Option.some.inj hp1, Option.some.inj hp2⟩
        · simp only [List.map, ha, hb]
          simp [hcond, Position.mk.injEq]
          intro hp1 hp2 hr
          rw [ha] at hp1
          rw [hb] at hp2
          have e1 := Option.some.inj hp1
          have e2 := Option.some.inj hp2
          omega
  · simp

end BattleField
